import Mathlib

/-!
Verification of the resilient price-aggregation layer of the
`complaintchain` dashboard (`src/hooks/useCryptoPriceV2.js`).

The JavaScript source is shallowly embedded: pure computations become Lean
functions, the stateful controller becomes explicit state passing, machine
numbers become `Int`/`Nat`/`Rat`, and fallible operations return
`Option`/`Except`.  Timestamps are epoch milliseconds interpreted in UTC.
-/

namespace CryptoPriceV2

/-! ### Constants (lines 17-26 of the source) -/

def CACHE_TTL : Int := 60 * 1000

def REQUEST_TIMEOUT : Nat := 5000

def MAX_RETRIES : Nat := 3

def RETRY_DELAYS : List Nat := [1000, 2000, 4000]

def CORS_PROXIES : List String :=
  ["https://corsproxy.io/?",
   "https://api.allorigins.win/raw?url=",
   "https://api.codetabs.com/v1/proxy?quest="]

/-! ### Data model -/

/-- One monthly price point: `{ month: "YYYY-MM", price }` with the price an
integer number of USD (`Math.round` output in the source). -/
structure PricePoint where
  month : String
  price : Int
deriving DecidableEq, Repr

/-- The current-price object produced by the provider adapters:
`{ price, change24h, source }`.  `source` is `none` on the paths where the
source field is absent (history-derived and fallback current prices set only
`price` and `change24h`). -/
structure CurrentPrice where
  price : Int
  change24h : Option ℚ
  source : Option String
deriving DecidableEq, Repr

/-- JavaScript `Math.round`: round half toward positive infinity,
`Math.round x = ⌊x + 1/2⌋`. -/
def jsRound (q : ℚ) : Int := ⌊q + 1 / 2⌋

/-! ### Month keys

The source derives the bucket key of a sample as
`` `${date.getFullYear()}-${String(date.getMonth() + 1).padStart(2, '0')}` ``
from `new Date(timestamp)`.  We embed the Gregorian civil-from-days
conversion for a UTC clock. -/

/-- `String(n).padStart(2, '0')` for the month number. -/
def pad2 (n : Nat) : String := if n < 10 then ("0" ++ toString n) else toString n

/-- Gregorian (year, month) of a day count since 1970-01-01 (civil-from-days
algorithm); months are 1-12, matching `getMonth() + 1`. -/
def yearMonthOfDays (d : Int) : Int × Nat :=
  let z : Int := d + 719468
  let era : Int := z.fdiv 146097
  let doe : Nat := (z - era * 146097).toNat
  let yoe : Nat := (doe - doe / 1460 + doe / 36524 - doe / 146096) / 365
  let y : Int := (yoe : Int) + era * 400
  let doy : Nat := doe - (365 * yoe + yoe / 4 - yoe / 100)
  let mp : Nat := (5 * doy + 2) / 153
  let m : Nat := if mp < 10 then mp + 3 else mp - 9
  (if m ≤ 2 then y + 1 else y, m)

/-- (year, month) of an epoch-millisecond timestamp (UTC). -/
def yearMonthOfMs (ts : Int) : Int × Nat := yearMonthOfDays (ts.fdiv 86400000)

/-- The bucket key `"YYYY-MM"` of a timestamp (source line 359). -/
def monthKey (ts : Int) : String :=
  toString (yearMonthOfMs ts).1 ++ "-" ++ pad2 (yearMonthOfMs ts).2

/-! ### Monthly bucketing (source lines 356-374)

`monthlyPrices` is a JS object keyed by month strings; since the keys are
non-index strings, iteration order is insertion order.  `addSample` performs
the in-place `{sum, count}` update, appending a fresh key at the end. -/

/-- Update the running `{sum, count}` association list with one sample. -/
def addSample : List (String × ℚ × Nat) → String → ℚ → List (String × ℚ × Nat)
  | [], k, p => [(k, p, 1)]
  | (k', s, c) :: rest, k, p =>
    if k' = k then (k', s + p, c + 1) :: rest
    else (k', s, c) :: addSample rest k p

/-- The `historyData.prices.forEach` accumulation of `monthlyPrices`. -/
def buildMonthly (l : List (Int × ℚ)) : List (String × ℚ × Nat) :=
  l.foldl (fun acc s => addSample acc (monthKey s.1) s.2) []

/-! The comparator `(a, b) => a.month.localeCompare(b.month)`: for the ASCII
month keys at hand, `localeCompare` is lexicographic comparison of the
character sequences.  We embed it as an executable lexicographic order. -/

/-- Lexicographic `≤` on character lists. -/
def charListLe : List Char → List Char → Bool
  | [], _ => true
  | _ :: _, [] => false
  | a :: as, b :: bs => if a = b then charListLe as bs else decide (a < b)

/-- Lexicographic `<` on character lists. -/
def charListLt : List Char → List Char → Bool
  | [], [] => false
  | [], _ :: _ => true
  | _ :: _, [] => false
  | a :: as, b :: bs => if a = b then charListLt as bs else decide (a < b)

/-- Lexicographic `≤` on strings (`localeCompare(a, b) <= 0`). -/
def strLe (a b : String) : Bool := charListLe a.data b.data

/-- Lexicographic `<` on strings (`localeCompare(a, b) < 0`). -/
def strLt (a b : String) : Bool := charListLt a.data b.data

/-- Insert a point into a month-sorted list (one step of a comparison sort
with the `localeCompare` comparator). -/
def insertSorted (e : PricePoint) : List PricePoint → List PricePoint
  | [] => [e]
  | b :: bs => if strLe e.month b.month then e :: b :: bs else b :: insertSorted e bs

/-- `.sort((a, b) => a.month.localeCompare(b.month))`: a comparison sort by
month key (the keys at hand are pairwise distinct, so every comparison sort
produces this list). -/
def sortByMonth : List PricePoint → List PricePoint
  | [] => []
  | e :: es => insertSorted e (sortByMonth es)

/-- The `processed` list of source lines 369-374: convert the accumulator to
`{month, price: Math.round(sum/count)}` entries and sort by month key. -/
def processPriceData (l : List (Int × ℚ)) : List PricePoint :=
  sortByMonth ((buildMonthly l).map fun e => ⟨e.1, jsRound (e.2.1 / (e.2.2 : ℚ))⟩)

/-! Spec-side definitions for claim C1 (refinement): the sample prices of a
month and their arithmetic mean, written from the spec's words. -/

/-- All prices of samples falling in month `m`. -/
def monthPrices (l : List (Int × ℚ)) (m : String) : List ℚ :=
  (l.filter fun s => monthKey s.1 = m).map Prod.snd

/-- The arithmetic mean of a month's sample prices. -/
def monthMean (l : List (Int × ℚ)) (m : String) : ℚ :=
  (monthPrices l m).sum / ((monthPrices l m).length : ℚ)

/-- The loop invariant of the bucketing fold: the accumulator holds, for each
month occurring in the samples seen so far, exactly one entry carrying the
running sum and count of that month's prices. -/
def Encodes (acc : List (String × ℚ × Nat)) (l : List (Int × ℚ)) : Prop :=
  (acc.map Prod.fst).Nodup ∧
    (∀ m, m ∈ acc.map Prod.fst ↔ m ∈ l.map fun s => monthKey s.1) ∧
    ∀ e ∈ acc, e.2.1 = (monthPrices l e.1).sum ∧ e.2.2 = (monthPrices l e.1).length

/-! ### Static fallback data (source lines 29-66)

`FALLBACK_PRICES` in textual (= JS object insertion) order. -/

def FALLBACK_PRICES : List (String × Int) :=
  [("2019-01", 3600), ("2019-02", 3800), ("2019-03", 4000), ("2019-04", 5200),
   ("2019-05", 7500), ("2019-06", 10800), ("2019-07", 10500), ("2019-08", 10200),
   ("2019-09", 8500), ("2019-10", 8300), ("2019-11", 7500), ("2019-12", 7200),
   ("2020-01", 8500), ("2020-02", 9500), ("2020-03", 6500), ("2020-04", 7500),
   ("2020-05", 9000), ("2020-06", 9300), ("2020-07", 9800), ("2020-08", 11500),
   ("2020-09", 10700), ("2020-10", 13000), ("2020-11", 17500), ("2020-12", 24000),
   ("2021-01", 34000), ("2021-02", 46000), ("2021-03", 55000), ("2021-04", 57000),
   ("2021-05", 40000), ("2021-06", 35000), ("2021-07", 33000), ("2021-08", 44000),
   ("2021-09", 45000), ("2021-10", 55000), ("2021-11", 60000), ("2021-12", 48000),
   ("2022-01", 41500), ("2022-02", 39500), ("2022-03", 44000), ("2022-04", 40000),
   ("2022-05", 31500), ("2022-06", 21500), ("2022-07", 22500), ("2022-08", 21500),
   ("2022-09", 19500), ("2022-10", 20500), ("2022-11", 17000), ("2022-12", 16800),
   ("2023-01", 21500), ("2023-02", 23500), ("2023-03", 28000), ("2023-04", 29500),
   ("2023-05", 27500), ("2023-06", 30500), ("2023-07", 29500), ("2023-08", 26000),
   ("2023-09", 27000), ("2023-10", 34500), ("2023-11", 37500), ("2023-12", 42500),
   ("2024-01", 43000), ("2024-02", 52000), ("2024-03", 70000), ("2024-04", 65000),
   ("2024-05", 67000), ("2024-06", 62000), ("2024-07", 66000), ("2024-08", 59000),
   ("2024-09", 63000), ("2024-10", 68000), ("2024-11", 90000), ("2024-12", 97000),
   ("2025-01", 102000), ("2025-02", 96000), ("2025-03", 82000), ("2025-04", 84000),
   ("2025-05", 103000), ("2025-06", 106000), ("2025-07", 97000), ("2025-08", 59000),
   ("2025-09", 63000), ("2025-10", 69000), ("2025-11", 96000), ("2025-12", 94000),
   ("2026-01", 95000),
   ("2026-02", 71000)]

/-- `FALLBACK_ARRAY` (source lines 64-66): `Object.entries(FALLBACK_PRICES)`
mapped to `{month, price}` and sorted by `localeCompare` on the month. -/
def FALLBACK_ARRAY : List PricePoint :=
  sortByMonth (FALLBACK_PRICES.map fun e => ⟨e.1, e.2⟩)

/-- `FALLBACK_PRICES[m]`: lookup in the fallback table. -/
def lookupFallback (m : String) : Option Int :=
  (FALLBACK_PRICES.find? fun e => e.1 = m).map Prod.snd

/-- Insert a string into a lexicographically sorted list (default JS
`Array.sort()` on strings). -/
def insertSortedStr (x : String) : List String → List String
  | [] => [x]
  | b :: bs => if strLe x b then x :: b :: bs else b :: insertSortedStr x bs

/-- Default `Array.sort()` on a string array. -/
def sortStr : List String → List String
  | [] => []
  | x :: xs => insertSortedStr x (sortStr xs)

/-- `Object.keys(FALLBACK_PRICES).sort().pop()` — the last key of the
sorted key list (source lines 404 and 422). -/
def fallbackLatestMonth : Option String :=
  (sortStr (FALLBACK_PRICES.map Prod.fst)).getLast?

/-- `FALLBACK_PRICES[latestMonth]` on the total-failure paths.  The table is
nonempty and closed under its own keys, so the default `0` is unreachable. -/
def fallbackLatestPrice : Int :=
  (fallbackLatestMonth.bind lookupFallback).getD 0

/-- The lexicographically largest string of a list (spec-side helper). -/
def maxKey (l : List String) : Option String :=
  l.foldl (fun acc k =>
    match acc with
    | none => some k
    | some m => if strLe m k then some k else some m) none

/-- Spec-side (claim C3): the fallback table's value at its lexicographically
last month key. -/
def lastFallbackKeyValue : Option Int :=
  (maxKey (FALLBACK_PRICES.map Prod.fst)).bind lookupFallback

/-! ### Cache store (source lines 183-213)

The `localStorage` slot at `CACHE_KEY` is modelled as
`Option (Except Unit CacheRecord)`: `none` = no record, `some (.error ())` =
a blob `JSON.parse` rejects, `some (.ok r)` = a parsable record.  A `getItem`
or `setItem` failure is modelled by the `readErr`/`writeErr` flags; both are
caught by the source's `try`/`catch`, so the embedded operations are total. -/

/-- The snapshot payload `{ priceData, currentPrice }`. -/
structure CacheData where
  priceData : List PricePoint
  currentPrice : CurrentPrice
deriving DecidableEq, Repr

/-- A persisted cache record `{ data, timestamp }`. -/
structure CacheRecord where
  data : CacheData
  timestamp : Int
deriving DecidableEq, Repr

/-- `loadFromCache` (source lines 184-200): returns the payload when the
record parses and is younger than `CACHE_TTL`, else `null`; the storage slot
is returned unchanged (the function never deletes or rewrites it). -/
def loadFromCache (readErr : Bool) (stored : Option (Except Unit CacheRecord))
    (now : Int) : Option CacheData × Option (Except Unit CacheRecord) :=
  (if readErr then none
   else
     match stored with
     | none => none
     | some (Except.error _) => none
     | some (Except.ok r) =>
       if now - r.timestamp < CACHE_TTL then some r.data else none,
   stored)

/-- `saveToCache` (source lines 203-213): overwrite the slot with a fresh
record, swallowing a storage failure (the slot is then left unchanged). -/
def saveToCache (writeErr : Bool) (stored : Option (Except Unit CacheRecord))
    (pd : List PricePoint) (cp : CurrentPrice) (now : Int) :
    Option (Except Unit CacheRecord) :=
  if writeErr then stored else some (Except.ok ⟨⟨pd, cp⟩, now⟩)

/-! ### Retry wrapper (source lines 72-98)

One call of the wrapped `fetchFn` either throws, resolves to a falsy value,
or resolves to a truthy value.  `fetchWithRetry` returns the JS outcome
(`.ok` = returned value, `.error e` = thrown value, where `e = none` models
the `undefined` of a never-assigned `lastError`), the number of attempts
performed, and the list of backoff delays slept, in order. -/

/-- Outcome of a single attempt of the wrapped fetch function. -/
inductive AttemptResult (α : Type) where
  | thrown : AttemptResult α
  | falsy : AttemptResult α
  | truthy (a : α) : AttemptResult α
deriving DecidableEq, Repr

/-- Whether an attempt resolved to a truthy value. -/
def AttemptResult.isTruthy {α : Type} : AttemptResult α → Bool
  | truthy _ => true
  | _ => false

/-- Whether an attempt threw. -/
def AttemptResult.isThrown {α : Type} : AttemptResult α → Bool
  | thrown => true
  | _ => false

/-- The retry loop of `fetchWithRetry`, with attempt outcomes given by `f`.
`fuel` counts the attempts still allowed (`MAX_RETRIES + 1 - attempt`),
`lastError` is the JS `lastError` variable (`none` = still `undefined`).
A delay `RETRY_DELAYS[attempt]` is slept only after a thrown attempt with
`attempt < MAX_RETRIES`. -/
def retryGo {α : Type} (f : Nat → AttemptResult α) :
    Nat → Nat → Option Unit → Except (Option Unit) α × Nat × List Nat
  | 0, _, lastError => (Except.error lastError, 0, [])
  | fuel + 1, attempt, lastError =>
    match f attempt with
    | AttemptResult.truthy a => (Except.ok a, 1, [])
    | AttemptResult.falsy =>
      let r := retryGo f fuel (attempt + 1) lastError
      (r.1, r.2.1 + 1, r.2.2)
    | AttemptResult.thrown =>
      if attempt < MAX_RETRIES then
        let r := retryGo f fuel (attempt + 1) (some ())
        (r.1, r.2.1 + 1, RETRY_DELAYS.getD attempt 0 :: r.2.2)
      else
        let r := retryGo f fuel (attempt + 1) (some ())
        (r.1, r.2.1 + 1, r.2.2)

/-- `fetchWithRetry` (source lines 72-98). -/
def fetchWithRetry {α : Type} (f : Nat → AttemptResult α) :
    Except (Option Unit) α × Nat × List Nat :=
  retryGo f (MAX_RETRIES + 1) 0 none

/-! ### Current-price provider chain (source lines 239-304)

From the chain's point of view each of the first four stages (CoinCap,
Binance, Kraken, CryptoCompare, each already wrapped in `fetchWithRetry`)
either throws or yields a `{price, change24h, source}` object; the stage
wins only when `result?.price` is truthy (a nonzero, non-`NaN` number —
`none` models `null`/`undefined`/`NaN`).  The final CoinGecko stage returns
its object as soon as `data[coin]` exists, without any price check. -/

/-- A provider result object `{price, change24h, source}` as seen by the
chain; `price = none` models a `null`/`undefined`/`NaN` price. -/
structure RawResult where
  price : Option ℚ
  change24h : Option ℚ
  source : String
deriving DecidableEq, Repr

/-- JS truthiness of `result?.price` for a provider result. -/
def truthyPrice (r : RawResult) : Bool :=
  match r.price with
  | some q => decide (q ≠ 0)
  | none => false

/-- One `try { ... } catch { ... }` stage of the chain: a throwing or
non-truthy-price stage falls through to the rest of the chain; the second
component counts the providers invoked. -/
def tryProvider (o : Except Unit RawResult) (rest : Option RawResult × Nat) :
    Option RawResult × Nat :=
  match o with
  | Except.ok r => if truthyPrice r then (some r, 1) else (rest.1, rest.2 + 1)
  | Except.error _ => (rest.1, rest.2 + 1)

/-- The final CoinGecko stage (source lines 286-301): `.ok (some r)` models a
response with `data[coin]` present (returned unconditionally), `.ok none` a
response without it, `.error` a failed proxy race; the last two fall through
to `return null`. -/
def tryCoinGecko (o : Except Unit (Option RawResult)) : Option RawResult × Nat :=
  match o with
  | Except.ok (some r) => (some r, 1)
  | Except.ok none => (none, 1)
  | Except.error _ => (none, 1)

/-- `fetchCurrentPrice` (source lines 239-304): the cascade over the provider
outcomes, in source order CoinCap, Binance, Kraken, CryptoCompare, CoinGecko.
Returns the resolved value (`none` = the chain's `return null`) and the
number of providers invoked. -/
def fetchCurrentPrice (o1 o2 o3 o4 : Except Unit RawResult)
    (o5 : Except Unit (Option RawResult)) : Option RawResult × Nat :=
  tryProvider o1 (tryProvider o2 (tryProvider o3 (tryProvider o4 (tryCoinGecko o5))))

/-- A chain stage that does not win: it either throws or yields a result
whose price is not truthy. -/
def fallsThrough (o : Except Unit RawResult) : Prop :=
  ∀ r, o = Except.ok r → truthyPrice r = false

/-! ### Proxy race (source lines 101-118)

`Promise.any` resolves with the value of the first promise (in completion
order) to fulfill, and rejects only when every promise rejects.  A relay
timing out is an `AbortSignal` rejection, and a non-2xx response is thrown,
so both are `.error`.  The completion order of the three relay requests is
an arbitrary sequencing of the relay indices. -/

/-- `Promise.any` over the relay outcomes listed in completion order. -/
def promiseAny {α : Type} : List (Except Unit α) → Option α
  | [] => none
  | Except.ok v :: _ => some v
  | Except.error _ :: rest => promiseAny rest

/-- `fetchWithProxyRace` (source lines 101-118): race the relays of
`CORS_PROXIES`; `order` is the completion order of the relay requests and
`results` the per-relay outcome.  `none` models the `AggregateError`
rejection of `Promise.any` when every relay fails. -/
def fetchWithProxyRace {α : Type} (order : List (Fin CORS_PROXIES.length))
    (results : Fin CORS_PROXIES.length → Except Unit α) : Option α :=
  promiseAny (order.map results)

/-! ### Aggregation controller (source lines 215-449)

The hook's `useState`/`useRef` cells and the `localStorage` slot become one
explicit state record; one aggregation cycle becomes a pure state
transformer parameterised by the settled fetch outcomes.  `Promise.allSettled`
always fulfills both tasks (`fetchCurrentPrice` resolves `null` on total
failure and `fetchHistoricalData` resolves `null` on failure), so the two
outcomes are `Option`s. -/

/-- The controller's state: the `useState` cells, the `isFetching` ref and
the cache slot. -/
structure ControllerState where
  priceData : List PricePoint
  currentPrice : Option CurrentPrice
  loading : Bool
  error : Option String
  lastUpdated : Option Int
  isLive : Bool
  dataSource : Option String
  cache : Option (Except Unit CacheRecord)
  isFetching : Bool
deriving Repr

/-- The state at mount (source lines 216-223), over an arbitrary initial
cache slot left by a previous session. -/
def initialState (cache0 : Option (Except Unit CacheRecord)) : ControllerState :=
  ⟨[], none, true, none, none, false, none, cache0, false⟩

/-- JS `a || d` for an optional string (`undefined` and `""` are falsy). -/
def jsStrOr (o : Option String) (d : String) : String :=
  match o with
  | some s => if s = "" then d else s
  | none => d

/-- The cache hydration effect (source lines 226-235): on a cache hit the
snapshot is installed and the source tagged `"cache"`; on a miss nothing
changes. -/
def hydrateFromCache (now : Int) (readErr : Bool) (s : ControllerState) :
    ControllerState :=
  match (loadFromCache readErr s.cache now).1 with
  | some d =>
    { s with priceData := d.priceData, currentPrice := some d.currentPrice,
             loading := false, isLive := true, dataSource := some ("cache") }
  | none => s

/-- The `try` body of one aggregation cycle (source lines 332-416) followed
by the `finally` (lines 431-434), given the settled outcomes: `priceRes` is
`fetchCurrentPrice`'s resolution, `histRes` is `fetchHistoricalData`'s
resolution (the `prices` array of the response), `writeErr` tells whether
the `saveToCache` call's `setItem` fails. -/
def runCycleBody (now : Int) (writeErr : Bool) (priceRes : Option CurrentPrice)
    (histRes : Option (List (Int × ℚ))) (s : ControllerState) : ControllerState :=
  let gotLive := priceRes.isSome
  let s1 :=
    match priceRes with
    | some r =>
      { s with currentPrice := some r, isLive := true,
               dataSource := some (jsStrOr r.source ("api")) }
    | none => s
  let s2 :=
    match histRes with
    | some prices =>
      let processed := processPriceData prices
      if processed.isEmpty then s1
      else
        let s2a := { s1 with priceData := processed }
        let s2b :=
          if gotLive then s2a
          else
            match prices.getLast? with
            | some last =>
              { s2a with currentPrice := some ⟨jsRound last.2, none, none⟩,
                         isLive := true }
            | none => { s2a with isLive := true }
        let cacheCp :=
          match priceRes with
          | some r => r
          | none => ⟨jsRound ((prices.getLast?.getD (0, 0)).2), none, none⟩
        { s2b with cache := saveToCache writeErr s2b.cache processed cacheCp now }
    | none => s1
  let gotHist :=
    match histRes with
    | some prices => !(processPriceData prices).isEmpty
    | none => false
  let s3 :=
    if gotHist then s2
    else
      let s3a := { s2 with priceData := FALLBACK_ARRAY }
      if gotLive then s3a
      else
        { s3a with currentPrice := some ⟨fallbackLatestPrice, none, none⟩,
                   dataSource := some ("fallback") }
  { s3 with isLive := gotLive || gotHist, lastUpdated := some now,
            error := none, loading := false, isFetching := false }

/-- The `catch` branch of a cycle (source lines 418-430) followed by the
`finally`: every field the branch writes is overwritten, so the result does
not depend on how far the `try` body got. -/
def runCycleCatch (now : Int) (s : ControllerState) : ControllerState :=
  { s with priceData := FALLBACK_ARRAY,
           currentPrice := some ⟨fallbackLatestPrice, none, none⟩,
           isLive := false, dataSource := some ("fallback"),
           lastUpdated := some now, error := none,
           loading := false, isFetching := false }

/-- The settled outcome of one cycle's work: either both fetches settle
(`ok`), or an unexpected exception reaches the `catch` (`threw`). -/
inductive CycleOutcome where
  | ok (priceRes : Option CurrentPrice) (histRes : Option (List (Int × ℚ)))
      (writeErr : Bool) : CycleOutcome
  | threw : CycleOutcome
deriving DecidableEq, Repr

/-- `fetchPriceData` (source lines 323-435): the reentrancy-guarded cycle.
Both the periodic timer tick and the exposed `refetch` call this same
function.  `calls` counts invocations of the underlying fetch functions
(`fetchCurrentPrice` and `fetchHistoricalData`, both launched by line 337);
a guarded trigger returns at line 327 without touching state or fetching. -/
def fetchPriceData (now : Int) (o : CycleOutcome) (s : ControllerState)
    (calls : Nat) : ControllerState × Nat :=
  if s.isFetching then (s, calls)
  else
    match o with
    | CycleOutcome.ok p h w =>
      (runCycleBody now w p h { s with isFetching := true }, calls + 2)
    | CycleOutcome.threw =>
      (runCycleCatch now { s with isFetching := true }, calls + 2)

/-- An externally observable event in the controller's life. -/
inductive ControllerEvent where
  | hydrate (now : Int) (readErr : Bool) : ControllerEvent
  | tick (now : Int) (o : CycleOutcome) : ControllerEvent
deriving DecidableEq, Repr

/-- One event step. -/
def stepEvent (s : ControllerState) : ControllerEvent → ControllerState
  | ControllerEvent.hydrate now re => hydrateFromCache now re s
  | ControllerEvent.tick now o => (fetchPriceData now o s 0).1

/-- Run a sequence of events from a state. -/
def runEvents (s : ControllerState) (evs : List ControllerEvent) :
    ControllerState :=
  evs.foldl stepEvent s

/-! Spec-side definitions for claims C2 and C9. -/

/-- Spec-side (claim C2): the entry of a `PricePoint` series with the
largest month key (for the sorted series produced by bucketing, its last
entry). -/
def latestByMonth (pts : List PricePoint) : Option PricePoint :=
  (sortByMonth pts).getLast?

/-- Strictly ascending by month key (sorted, no duplicate months). -/
def sortedStrict (pts : List PricePoint) : Prop :=
  List.Pairwise (fun a b => strLt a.month b.month = true) pts

/-- A cache payload whose series is strictly sorted and whose prices are
non-negative. -/
def goodData (d : CacheData) : Prop :=
  sortedStrict d.priceData ∧ (∀ e ∈ d.priceData, 0 ≤ e.price) ∧
    0 ≤ d.currentPrice.price

/-- Every parsable record in the cache slot carries good data. -/
def goodCache : Option (Except Unit CacheRecord) → Prop
  | some (Except.ok r) => goodData r.data
  | _ => True

/-- The controller-state invariant of claim C9 (amended): series strictly
sorted by month, all exposed prices non-negative, cache well formed. -/
def goodState (s : ControllerState) : Prop :=
  sortedStrict s.priceData ∧ (∀ e ∈ s.priceData, 0 ≤ e.price) ∧
    (∀ cp ∈ s.currentPrice, 0 ≤ cp.price) ∧ goodCache s.cache

/-- Fetch outcomes whose delivered prices are all non-negative. -/
def nonnegOutcome : CycleOutcome → Prop
  | CycleOutcome.ok p h _ =>
    (∀ r ∈ p, 0 ≤ r.price) ∧ ∀ x ∈ h.getD [], 0 ≤ x.2
  | CycleOutcome.threw => True

/-- Events whose fetch outcomes deliver only non-negative prices. -/
def nonnegEvent : ControllerEvent → Prop
  | ControllerEvent.hydrate _ _ => True
  | ControllerEvent.tick _ o => nonnegOutcome o

/-! ## Theorems

First the library of lemmas about the lexicographic comparator and the
month sort, then the bucketing invariant, then the claims. -/

theorem charListLe_total : ∀ as bs, charListLe as bs = true ∨ charListLe bs as = true := by
  intro as
  induction as with
  | nil => intro bs; left; rfl
  | cons a as ih =>
    intro bs
    cases bs with
    | nil => right; rfl
    | cons b bs =>
      by_cases hab : a = b
      · subst hab
        simpa [charListLe] using ih bs
      · rcases lt_or_gt_of_ne hab with h | h
        · left; simp [charListLe, hab, h]
        · right; simp [charListLe, Ne.symm hab, h]

theorem charListLe_trans :
    ∀ as bs cs, charListLe as bs = true → charListLe bs cs = true →
      charListLe as cs = true := by
  intro as
  induction as with
  | nil => intro bs cs _ _; rfl
  | cons a as ih =>
    intro bs cs h1 h2
    cases bs with
    | nil => simp [charListLe] at h1
    | cons b bs =>
      cases cs with
      | nil => simp [charListLe] at h2
      | cons c cs =>
        by_cases hab : a = b <;> by_cases hbc : b = c
        · subst hab; subst hbc
          simp only [charListLe, if_pos rfl] at h1 h2 ⊢
          exact ih bs cs h1 h2
        · subst hab
          simp only [charListLe, if_pos rfl, if_neg hbc] at h1 h2 ⊢
          exact h2
        · subst hbc
          simp only [charListLe, if_neg hab, if_pos rfl] at h1 ⊢
          exact h1
        · simp only [charListLe, if_neg hab, if_neg hbc, decide_eq_true_eq] at h1 h2
          have hac : a ≠ c := ne_of_lt (lt_trans h1 h2)
          simp [charListLe, hac, lt_trans h1 h2]

theorem charListLe_antisymm :
    ∀ as bs, charListLe as bs = true → charListLe bs as = true → as = bs := by
  intro as
  induction as with
  | nil =>
    intro bs _ h2
    cases bs with
    | nil => rfl
    | cons b bs => simp [charListLe] at h2
  | cons a as ih =>
    intro bs h1 h2
    cases bs with
    | nil => simp [charListLe] at h1
    | cons b bs =>
      by_cases hab : a = b
      · subst hab
        simp only [charListLe, if_pos rfl] at h1 h2
        rw [ih bs h1 h2]
      · simp only [charListLe, if_neg hab, if_neg (Ne.symm hab),
          decide_eq_true_eq] at h1 h2
        exact absurd h2 (lt_asymm h1)

theorem charListLt_iff :
    ∀ as bs, charListLt as bs = true ↔ charListLe as bs = true ∧ as ≠ bs := by
  intro as
  induction as with
  | nil =>
    intro bs
    cases bs with
    | nil => simp [charListLt, charListLe]
    | cons b bs => simp [charListLt, charListLe]
  | cons a as ih =>
    intro bs
    cases bs with
    | nil => simp [charListLt, charListLe]
    | cons b bs =>
      by_cases hab : a = b
      · subst hab
        simp [charListLt, charListLe, ih bs]
      · simp [charListLt, charListLe, if_neg hab, hab]

theorem string_eq_of_data {a b : String} (h : a.data = b.data) : a = b := by
  cases a; cases b; exact congrArg String.mk h

theorem strLe_total (a b : String) : strLe a b = true ∨ strLe b a = true :=
  charListLe_total a.data b.data

theorem strLe_trans {a b c : String} (h1 : strLe a b = true)
    (h2 : strLe b c = true) : strLe a c = true :=
  charListLe_trans a.data b.data c.data h1 h2

theorem strLe_antisymm {a b : String} (h1 : strLe a b = true)
    (h2 : strLe b a = true) : a = b :=
  string_eq_of_data (charListLe_antisymm a.data b.data h1 h2)

theorem strLt_iff (a b : String) :
    strLt a b = true ↔ strLe a b = true ∧ a ≠ b := by
  unfold strLt strLe
  rw [charListLt_iff]
  constructor
  · rintro ⟨h1, h2⟩
    exact ⟨h1, fun hc => h2 (by rw [hc])⟩
  · rintro ⟨h1, h2⟩
    exact ⟨h1, fun hc => h2 (string_eq_of_data hc)⟩

theorem strLe_of_not_strLe {a b : String} (h : ¬ strLe a b = true) :
    strLe b a = true :=
  (strLe_total a b).resolve_left h

theorem insertSorted_perm (e : PricePoint) :
    ∀ l, List.Perm (insertSorted e l) (e :: l) := by
  intro l
  induction l with
  | nil => exact List.Perm.refl _
  | cons b bs ih =>
    by_cases h : strLe e.month b.month
    · simp [insertSorted, h]
    · simp only [insertSorted, if_neg h]
      exact (ih.cons b).trans (List.Perm.swap e b bs)

theorem sortByMonth_perm : ∀ l, List.Perm (sortByMonth l) l := by
  intro l
  induction l with
  | nil => exact List.Perm.refl _
  | cons e es ih =>
    exact (insertSorted_perm e (sortByMonth es)).trans (ih.cons e)

theorem mem_insertSorted {x e : PricePoint} {l : List PricePoint} :
    x ∈ insertSorted e l ↔ x = e ∨ x ∈ l := by
  rw [(insertSorted_perm e l).mem_iff, List.mem_cons]

theorem insertSorted_pairwise {e : PricePoint} {l : List PricePoint}
    (h : List.Pairwise (fun a b => strLe a.month b.month = true) l) :
    List.Pairwise (fun a b => strLe a.month b.month = true) (insertSorted e l) := by
  induction l with
  | nil => simp [insertSorted]
  | cons b bs ih =>
    rcases List.pairwise_cons.mp h with ⟨hb, hbs⟩
    by_cases hle : strLe e.month b.month
    · simp only [insertSorted, if_pos hle]
      refine List.pairwise_cons.mpr ⟨?_, h⟩
      intro x hx
      rcases List.mem_cons.mp hx with hx | hx
      · rw [hx]; exact hle
      · exact strLe_trans hle (hb x hx)
    · simp only [insertSorted, if_neg hle]
      refine List.pairwise_cons.mpr ⟨?_, ih hbs⟩
      intro x hx
      rcases mem_insertSorted.mp hx with hx | hx
      · rw [hx]; exact strLe_of_not_strLe hle
      · exact hb x hx

theorem sortByMonth_pairwise :
    ∀ l, List.Pairwise (fun a b => strLe a.month b.month = true) (sortByMonth l) := by
  intro l
  induction l with
  | nil => simp [sortByMonth]
  | cons e es ih => exact insertSorted_pairwise ih

theorem pairwise_conj {α : Type} {R S : α → α → Prop} :
    ∀ {l : List α}, List.Pairwise R l → List.Pairwise S l →
      List.Pairwise (fun a b => R a b ∧ S a b) l := by
  intro l hR hS
  induction l with
  | nil => exact List.Pairwise.nil
  | cons a l ih =>
    rcases List.pairwise_cons.mp hR with ⟨hRa, hRl⟩
    rcases List.pairwise_cons.mp hS with ⟨hSa, hSl⟩
    exact List.pairwise_cons.mpr ⟨fun x hx => ⟨hRa x hx, hSa x hx⟩, ih hRl hSl⟩

/-! ### The bucketing fold invariant -/

theorem monthPrices_append (l : List (Int × ℚ)) (t : Int) (p : ℚ) (m : String) :
    monthPrices (l ++ [(t, p)]) m =
      monthPrices l m ++ (if monthKey t = m then [p] else []) := by
  unfold monthPrices
  rw [List.filter_append, List.map_append]
  congr 1
  by_cases h : monthKey t = m
  · simp [h]
  · simp [h]

theorem monthPrices_eq_nil {l : List (Int × ℚ)} {m : String}
    (h : m ∉ l.map fun s => monthKey s.1) : monthPrices l m = [] := by
  unfold monthPrices
  have : l.filter (fun s => monthKey s.1 = m) = [] := by
    apply List.filter_eq_nil_iff.mpr
    intro a ha
    simp only [decide_eq_true_eq]
    intro hc
    exact h (List.mem_map.mpr ⟨a, ha, hc⟩)
  rw [this, List.map_nil]

theorem addSample_map_fst (k : String) (p : ℚ) :
    ∀ acc, (addSample acc k p).map Prod.fst =
      if k ∈ acc.map Prod.fst then acc.map Prod.fst
      else acc.map Prod.fst ++ [k] := by
  intro acc
  induction acc with
  | nil => simp [addSample]
  | cons e rest ih =>
    obtain ⟨k', s, c⟩ := e
    by_cases h : k' = k
    · subst h
      simp [addSample]
    · simp only [addSample, if_neg h, List.map_cons, ih]
      by_cases hm : k ∈ rest.map Prod.fst
      · simp [hm, Ne.symm h]
      · simp [hm, Ne.symm h]

theorem addSample_mem {k : String} {p : ℚ} :
    ∀ acc, (acc.map Prod.fst).Nodup →
      ∀ e ∈ addSample acc k p,
        (e.1 ≠ k ∧ e ∈ acc) ∨
          (e.1 = k ∧ ((k ∉ acc.map Prod.fst ∧ e = (k, p, 1)) ∨
            ∃ s c, (k, s, c) ∈ acc ∧ e = (k, s + p, c + 1))) := by
  intro acc
  induction acc with
  | nil =>
    intro _ e he
    simp only [addSample, List.mem_singleton] at he
    subst he
    exact Or.inr ⟨rfl, Or.inl ⟨by simp, rfl⟩⟩
  | cons hd rest ih =>
    obtain ⟨k', s, c⟩ := hd
    intro hnd e he
    rw [List.map_cons] at hnd
    rcases List.nodup_cons.mp hnd with ⟨hknr, hndr⟩
    by_cases h : k' = k
    · subst h
      simp only [addSample, if_pos rfl] at he
      rcases List.mem_cons.mp he with he | he
      · subst he
        exact Or.inr ⟨rfl, Or.inr ⟨s, c, List.mem_cons_self _ _, rfl⟩⟩
      · refine Or.inl ⟨?_, List.mem_cons_of_mem _ he⟩
        intro hek
        exact hknr (by rw [← hek]; exact List.mem_map.mpr ⟨e, he, rfl⟩)
    · simp only [addSample, if_neg h] at he
      rcases List.mem_cons.mp he with he | he
      · subst he
        exact Or.inl ⟨h, List.mem_cons_self _ _⟩
      · rcases ih hndr e he with ⟨hne, hmem⟩ | ⟨hek, hrest⟩
        · exact Or.inl ⟨hne, List.mem_cons_of_mem _ hmem⟩
        · refine Or.inr ⟨hek, ?_⟩
          rcases hrest with ⟨hnm, heq⟩ | ⟨s', c', hmem, heq⟩
          · refine Or.inl ⟨?_, heq⟩
            simp only [List.map_cons, List.mem_cons]
            rintro (hc | hc)
            · exact h hc.symm
            · exact hnm hc
          · exact Or.inr ⟨s', c', List.mem_cons_of_mem _ hmem, heq⟩

theorem encodes_nil : Encodes [] [] := by
  refine ⟨List.nodup_nil, ?_, ?_⟩ <;> simp

theorem encodes_addSample {acc : List (String × ℚ × Nat)} {l : List (Int × ℚ)}
    (h : Encodes acc l) (t : Int) (p : ℚ) :
    Encodes (addSample acc (monthKey t) p) (l ++ [(t, p)]) := by
  obtain ⟨hnd, hmem, hval⟩ := h
  refine ⟨?_, ?_, ?_⟩
  · rw [addSample_map_fst]
    by_cases hk : monthKey t ∈ acc.map Prod.fst
    · simpa [hk] using hnd
    · simp only [if_neg hk]
      rw [List.nodup_append]
      exact ⟨hnd, List.nodup_singleton _, by simpa using hk⟩
  · intro m
    rw [addSample_map_fst]
    by_cases hk : monthKey t ∈ acc.map Prod.fst
    · simp only [if_pos hk, List.map_append, List.mem_append, hmem m]
      constructor
      · intro hm
        exact Or.inl hm
      · rintro (hm | hm)
        · exact hm
        · simp only [List.map_cons, List.map_nil, List.mem_singleton] at hm
          subst hm
          exact (hmem _).mp hk
    · simp only [if_neg hk, List.map_append, List.mem_append, List.mem_singleton,
        hmem m, List.map_cons, List.map_nil]
  · intro e he
    rcases addSample_mem acc hnd e he with ⟨hne, hmem'⟩ | ⟨hek, hrest⟩
    · rw [monthPrices_append, if_neg (Ne.symm hne)]
      simpa using hval e hmem'
    · rcases hrest with ⟨hnm, heq⟩ | ⟨s', c', hmem', heq⟩
      · subst heq
        rw [monthPrices_append]
        simp only [if_pos rfl]
        rw [monthPrices_eq_nil (fun hc => hnm ((hmem _).mpr hc))]
        simp
      · subst heq
        rcases hval _ hmem' with ⟨hs, hc⟩
        rw [monthPrices_append, if_pos rfl]
        constructor
        · simp only [List.sum_append, List.sum_cons, List.sum_nil, add_zero]
          exact congrArg (fun z => z + p) hs
        · simp only [List.length_append, List.length_cons, List.length_nil,
            zero_add]
          exact congrArg (fun z => z + 1) hc

theorem encodes_foldl :
    ∀ (rest l : List (Int × ℚ)) (acc : List (String × ℚ × Nat)),
      Encodes acc l →
      Encodes (rest.foldl (fun acc s => addSample acc (monthKey s.1) s.2) acc)
        (l ++ rest) := by
  intro rest
  induction rest with
  | nil =>
    intro l acc h
    simpa using h
  | cons x rest ih =>
    obtain ⟨t, p⟩ := x
    intro l acc h
    have h3 := ih (l ++ [(t, p)]) _ (encodes_addSample h t p)
    simpa using h3

theorem encodes_buildMonthly (l : List (Int × ℚ)) : Encodes (buildMonthly l) l := by
  have h := encodes_foldl l [] [] encodes_nil
  simpa [buildMonthly] using h

/-! ### Properties of the processed monthly series -/

theorem mem_processPriceData {l : List (Int × ℚ)} {e : PricePoint} :
    e ∈ processPriceData l ↔
      ∃ b ∈ buildMonthly l,
        e = (⟨b.1, jsRound (b.2.1 / (b.2.2 : ℚ))⟩ : PricePoint) := by
  unfold processPriceData
  rw [(sortByMonth_perm _).mem_iff, List.mem_map]
  constructor
  · rintro ⟨b, hb, rfl⟩
    exact ⟨b, hb, rfl⟩
  · rintro ⟨b, hb, rfl⟩
    exact ⟨b, hb, rfl⟩

theorem processPriceData_months_perm (l : List (Int × ℚ)) :
    List.Perm ((processPriceData l).map fun e => e.month)
      ((buildMonthly l).map Prod.fst) := by
  have h1 := (sortByMonth_perm
    ((buildMonthly l).map fun e =>
      (⟨e.1, jsRound (e.2.1 / (e.2.2 : ℚ))⟩ : PricePoint))).map fun e => e.month
  rw [List.map_map] at h1
  exact h1

theorem processPriceData_months_nodup (l : List (Int × ℚ)) :
    ((processPriceData l).map fun e => e.month).Nodup :=
  ((processPriceData_months_perm l).nodup_iff).mpr (encodes_buildMonthly l).1

theorem processPriceData_sorted (l : List (Int × ℚ)) :
    sortedStrict (processPriceData l) := by
  have hle := sortByMonth_pairwise
    ((buildMonthly l).map fun e =>
      (⟨e.1, jsRound (e.2.1 / (e.2.2 : ℚ))⟩ : PricePoint))
  have hne : List.Pairwise (fun a b : PricePoint => a.month ≠ b.month)
      (processPriceData l) :=
    List.pairwise_map.mp (processPriceData_months_nodup l)
  exact (pairwise_conj hle hne).imp fun h => (strLt_iff _ _).mpr h

theorem processPriceData_month_mem (l : List (Int × ℚ)) (m : String) :
    (∃ e ∈ processPriceData l, e.month = m) ↔
      m ∈ l.map fun s => monthKey s.1 := by
  rw [← (encodes_buildMonthly l).2.1 m]
  constructor
  · rintro ⟨e, he, rfl⟩
    rcases mem_processPriceData.mp he with ⟨b, hb, rfl⟩
    exact List.mem_map.mpr ⟨b, hb, rfl⟩
  · intro hm
    rcases List.mem_map.mp hm with ⟨b, hb, rfl⟩
    exact ⟨⟨b.1, jsRound (b.2.1 / (b.2.2 : ℚ))⟩,
      mem_processPriceData.mpr ⟨b, hb, rfl⟩, rfl⟩

theorem processPriceData_price {l : List (Int × ℚ)} {e : PricePoint}
    (he : e ∈ processPriceData l) : e.price = jsRound (monthMean l e.month) := by
  rcases mem_processPriceData.mp he with ⟨b, hb, rfl⟩
  rcases (encodes_buildMonthly l).2.2 b hb with ⟨hs, hc⟩
  simp only [monthMean]
  rw [← hs, ← hc]

theorem processPriceData_ne_nil {l : List (Int × ℚ)} (h : l ≠ []) :
    processPriceData l ≠ [] := by
  rcases List.exists_cons_of_ne_nil h with ⟨x, xs, rfl⟩
  intro hc
  have hm : monthKey x.1 ∈ (x :: xs).map fun s => monthKey s.1 := by simp
  rcases (processPriceData_month_mem _ _).mpr hm with ⟨e, he, _⟩
  rw [hc] at he
  exact List.not_mem_nil e he

/-! ### Claim C1 -/

/-- C1: monthly bucketing produces exactly one `PricePoint` per distinct
(year, month) of the input (months of the output are exactly the months of
the input, and the output is strictly sorted by month key, hence duplicate
free), each carrying the arithmetic mean of that month's sample prices
rounded by `Math.round`; and on the spec's example series it yields
`[{month:"2024-01", price:43200}, {month:"2024-02", price:52000}]`. -/
theorem c1_monthly_bucketing :
    (∀ l : List (Int × ℚ),
        sortedStrict (processPriceData l) ∧
        (∀ m : String, (∃ e ∈ processPriceData l, e.month = m) ↔
          m ∈ l.map fun s => monthKey s.1) ∧
        ∀ e ∈ processPriceData l, e.price = jsRound (monthMean l e.month)) ∧
      processPriceData
          [(1704412800000, 43000), (1705708800000, 43400), (1707523200000, 52000)] =
        [⟨"2024-01", 43200⟩, ⟨"2024-02", 52000⟩] := by
  constructor
  · intro l
    exact ⟨processPriceData_sorted l, fun m => processPriceData_month_mem l m,
      fun e he => processPriceData_price he⟩
  · simp only [processPriceData, buildMonthly, List.foldl, addSample, sortByMonth,
      insertSorted, List.map]
    norm_num [jsRound, monthKey]
    decide

/-- C1 witness: the general part of the claim applied to a concrete series. -/
theorem c1_monthly_bucketing_witness :
    sortedStrict (processPriceData [((0 : Int), (5 : ℚ))]) :=
  (c1_monthly_bucketing.1 [((0 : Int), (5 : ℚ))]).1

/-! ### Claim C2 -/

/-- C2 counterexample: with both samples in 2024-01, the most recent monthly
average is 150 but the cycle derives the current price from the last raw
sample (200), so the claim "currentPrice.price equals the most recent
monthly average" fails. -/
theorem c2_counterexample :
    (runCycleBody 5 false none
        (some [(1704412800000, (100 : ℚ)), (1705708800000, 200)])
        (initialState none)).currentPrice = some ⟨200, none, none⟩ ∧
      latestByMonth (processPriceData
        [(1704412800000, (100 : ℚ)), (1705708800000, 200)]) =
        some ⟨"2024-01", 150⟩ ∧
      (200 : Int) ≠ 150 := by
  have hpd : processPriceData [(1704412800000, (100 : ℚ)), (1705708800000, 200)] =
      [⟨"2024-01", 150⟩] := by
    simp only [processPriceData, buildMonthly, List.foldl, addSample, sortByMonth,
      insertSorted, List.map]
    norm_num [jsRound, monthKey]
    decide
  refine ⟨?_, ?_, by decide⟩
  · have hround : jsRound (200 : ℚ) = 200 := by norm_num [jsRound]
    have hemp : (processPriceData
        [(1704412800000, (100 : ℚ)), (1705708800000, 200)]).isEmpty = false := by
      rw [hpd]; rfl
    simp [runCycleBody, hemp, hround]
  · unfold latestByMonth
    rw [hpd]
    rfl

/-- C2 (amended): when current-price resolution fails and the historical
fetch succeeds with a nonempty series, the cycle sets `currentPrice.price`
to `Math.round` of the price of the LAST RAW SAMPLE of the series (source
line 382-388), not to the most recent monthly average. -/
theorem c2_hist_current_from_last_sample :
    ∀ (now : Int) (w : Bool) (s : ControllerState) (l : List (Int × ℚ))
      (h : l ≠ []),
      (runCycleBody now w none (some l) s).currentPrice =
        some ⟨jsRound (l.getLast h).2, none, none⟩ := by
  intro now w s l h
  have hne := processPriceData_ne_nil (l := l) h
  have hempty : (processPriceData l).isEmpty = false := by
    simpa [List.isEmpty_iff] using hne
  have hlast : l.getLast? = some (l.getLast h) := List.getLast?_eq_getLast l h
  simp [runCycleBody, hempty, hlast]

/-- C2 witness for the amended statement. -/
theorem c2_hist_current_from_last_sample_witness :
    (runCycleBody 0 false none (some [((0 : Int), (7 : ℚ))])
        (initialState none)).currentPrice = some ⟨7, none, none⟩ := by
  have h := c2_hist_current_from_last_sample 0 false (initialState none)
    [((0 : Int), (7 : ℚ))] (by simp)
  rw [h]
  norm_num [List.getLast, jsRound]

/-! ### Claim C3 -/

/-- C3: when both fetches fail — and likewise when an unexpected exception
reaches the cycle's `catch` — the cycle publishes the fallback table's array
form, sets the current price to the table's value at its lexicographically
last month key, and clears the error field. -/
theorem c3_total_failure :
    ∀ (now : Int) (w : Bool) (s : ControllerState),
      ((runCycleBody now w none none s).priceData = FALLBACK_ARRAY ∧
        (runCycleBody now w none none s).currentPrice =
          some ⟨fallbackLatestPrice, none, none⟩ ∧
        (runCycleBody now w none none s).error = none) ∧
      ((runCycleCatch now s).priceData = FALLBACK_ARRAY ∧
        (runCycleCatch now s).currentPrice =
          some ⟨fallbackLatestPrice, none, none⟩ ∧
        (runCycleCatch now s).error = none) ∧
      lastFallbackKeyValue = some fallbackLatestPrice ∧
      fallbackLatestPrice = 71000 := by
  intro now w s
  refine ⟨⟨?_, ?_, ?_⟩, ⟨rfl, rfl, rfl⟩, by decide, by decide⟩
  · simp [runCycleBody]
  · simp [runCycleBody]
  · simp [runCycleBody]

/-! ### Claim C4 -/

/-- C4: the cache load returns the stored snapshot exactly when its age is
strictly below the 60-second time-to-live and absence otherwise, never
removes the stored record, and swallows read, parse and write failures
(load yields absence, save leaves the slot unchanged); both operations are
total, so no exception propagates. -/
theorem c4_cache_contract :
    ∀ (r : CacheRecord) (stored : Option (Except Unit CacheRecord)) (now : Int)
      (pd : List PricePoint) (cp : CurrentPrice),
      (now - r.timestamp < CACHE_TTL →
        loadFromCache false (some (Except.ok r)) now =
          (some r.data, some (Except.ok r))) ∧
      (¬ now - r.timestamp < CACHE_TTL →
        loadFromCache false (some (Except.ok r)) now =
          (none, some (Except.ok r))) ∧
      (∀ re : Bool, (loadFromCache re stored now).2 = stored) ∧
      (loadFromCache true stored now).1 = none ∧
      (loadFromCache false (some (Except.error ())) now).1 = none ∧
      (loadFromCache false none now).1 = none ∧
      saveToCache true stored pd cp now = stored ∧
      saveToCache false stored pd cp now = some (Except.ok ⟨⟨pd, cp⟩, now⟩) ∧
      CACHE_TTL = 60 * 1000 := by
  intro r stored now pd cp
  refine ⟨fun h => by simp [loadFromCache, h], fun h => by simp [loadFromCache, h],
    fun re => rfl, by simp [loadFromCache], by simp [loadFromCache],
    by simp [loadFromCache], by simp [saveToCache], by simp [saveToCache], rfl⟩

/-- C4 witness: a fresh snapshot is returned, a stale one is not. -/
theorem c4_cache_contract_witness :
    loadFromCache false (some (Except.ok ⟨⟨[], ⟨1, none, none⟩⟩, 0⟩)) 10 =
      (some ⟨[], ⟨1, none, none⟩⟩, some (Except.ok ⟨⟨[], ⟨1, none, none⟩⟩, 0⟩)) ∧
    loadFromCache false (some (Except.ok ⟨⟨[], ⟨1, none, none⟩⟩, 0⟩)) 60000 =
      (none, some (Except.ok ⟨⟨[], ⟨1, none, none⟩⟩, 0⟩)) :=
  ⟨(c4_cache_contract ⟨⟨[], ⟨1, none, none⟩⟩, 0⟩ none 10 [] ⟨1, none, none⟩).1
      (by decide),
    (c4_cache_contract ⟨⟨[], ⟨1, none, none⟩⟩, 0⟩ none 60000 [] ⟨1, none, none⟩).2.1
      (by decide)⟩

/-! ### Claim C5 -/

/-- C5 counterexample: CoinCap resolves with the non-null numeric price 0,
which is falsy in JS, so the chain does NOT return it: Binance is invoked
and its result is returned (2 providers invoked), refuting "the first
provider whose result has a non-null numeric price is returned and no later
provider is invoked". -/
theorem c5_counterexample :
    fetchCurrentPrice (Except.ok ⟨some 0, none, "coincap"⟩)
        (Except.ok ⟨some 100, none, "binance"⟩)
        (Except.error ()) (Except.error ()) (Except.error ()) =
      (some ⟨some 100, none, "binance"⟩, 2) ∧
      (⟨some 0, none, "coincap"⟩ : RawResult).price ≠ none := by
  constructor
  · simp [fetchCurrentPrice, tryProvider, tryCoinGecko, truthyPrice]
  · simp

/-- C5 (amended): the chain tries CoinCap, Binance, Kraken, CryptoCompare,
CoinGecko in this fixed order; the first of the four leading providers whose
result has a TRUTHY price (a nonzero, non-NaN number) wins and later
providers are not invoked; if none wins, CoinGecko's result is returned
whenever its response has an entry for the coin (no price check), and the
resolver returns null — it never throws — when every provider fails. -/
theorem c5_chain_order :
    ∀ (o1 o2 o3 o4 : Except Unit RawResult) (o5 : Except Unit (Option RawResult)),
      (∀ r1, o1 = Except.ok r1 → truthyPrice r1 = true →
        fetchCurrentPrice o1 o2 o3 o4 o5 = (some r1, 1)) ∧
      (fallsThrough o1 → ∀ r2, o2 = Except.ok r2 → truthyPrice r2 = true →
        fetchCurrentPrice o1 o2 o3 o4 o5 = (some r2, 2)) ∧
      (fallsThrough o1 → fallsThrough o2 → ∀ r3, o3 = Except.ok r3 →
        truthyPrice r3 = true →
        fetchCurrentPrice o1 o2 o3 o4 o5 = (some r3, 3)) ∧
      (fallsThrough o1 → fallsThrough o2 → fallsThrough o3 → ∀ r4,
        o4 = Except.ok r4 → truthyPrice r4 = true →
        fetchCurrentPrice o1 o2 o3 o4 o5 = (some r4, 4)) ∧
      (fallsThrough o1 → fallsThrough o2 → fallsThrough o3 → fallsThrough o4 →
        ∀ r5, o5 = Except.ok (some r5) →
        fetchCurrentPrice o1 o2 o3 o4 o5 = (some r5, 5)) ∧
      (fallsThrough o1 → fallsThrough o2 → fallsThrough o3 → fallsThrough o4 →
        (o5 = Except.ok none ∨ o5 = Except.error ()) →
        fetchCurrentPrice o1 o2 o3 o4 o5 = (none, 5)) := by
  intro o1 o2 o3 o4 o5
  have step : ∀ o : Except Unit RawResult, fallsThrough o →
      ∀ rest : Option RawResult × Nat, tryProvider o rest = (rest.1, rest.2 + 1) := by
    intro o ho rest
    cases o with
    | ok r =>
      have := ho r rfl
      simp [tryProvider, this]
    | error e => simp [tryProvider]
  refine ⟨?_, ?_, ?_, ?_, ?_, ?_⟩
  · rintro r1 rfl h
    simp [fetchCurrentPrice, tryProvider, h]
  · rintro h1 r2 rfl h
    simp only [fetchCurrentPrice]
    rw [step o1 h1]
    simp [tryProvider, h]
  · rintro h1 h2 r3 rfl h
    simp only [fetchCurrentPrice]
    rw [step o1 h1, step o2 h2]
    simp [tryProvider, h]
  · rintro h1 h2 h3 r4 rfl h
    simp only [fetchCurrentPrice]
    rw [step o1 h1, step o2 h2, step o3 h3]
    simp [tryProvider, h]
  · rintro h1 h2 h3 h4 r5 rfl
    simp only [fetchCurrentPrice]
    rw [step o1 h1, step o2 h2, step o3 h3, step o4 h4]
    simp [tryCoinGecko]
  · rintro h1 h2 h3 h4 (rfl | rfl) <;>
      (simp only [fetchCurrentPrice];
       rw [step o1 h1, step o2 h2, step o3 h3, step o4 h4];
       simp [tryCoinGecko])

/-- C5 witness for the amended statement: a truthy second provider wins
after a throwing first one. -/
theorem c5_chain_order_witness :
    fetchCurrentPrice (Except.error ()) (Except.ok ⟨some 5, none, "binance"⟩)
        (Except.error ()) (Except.error ()) (Except.error ()) =
      (some ⟨some 5, none, "binance"⟩, 2) :=
  (c5_chain_order (Except.error ()) (Except.ok ⟨some 5, none, "binance"⟩)
      (Except.error ()) (Except.error ()) (Except.error ())).2.1
    (fun r hr => by cases hr) _ rfl (by decide)

/-! ### The retry loop (claims C6 and C10) -/

theorem retryGo_attempts_le {α : Type} (f : Nat → AttemptResult α) :
    ∀ fuel attempt le, (retryGo f fuel attempt le).2.1 ≤ fuel := by
  intro fuel
  induction fuel with
  | zero => intro a le; simp [retryGo]
  | succ n ih =>
    intro a le
    cases h : f a with
    | truthy v => simp [retryGo, h]
    | falsy =>
      simp only [retryGo, h]
      exact Nat.succ_le_succ (ih _ _)
    | thrown =>
      simp only [retryGo, h]
      split <;> exact Nat.succ_le_succ (ih _ _)

theorem retryGo_error_attempts {α : Type} (f : Nat → AttemptResult α) :
    ∀ fuel attempt le e, (retryGo f fuel attempt le).1 = Except.error e →
      (retryGo f fuel attempt le).2.1 = fuel := by
  intro fuel
  induction fuel with
  | zero => intro a le e _; rfl
  | succ n ih =>
    intro a le e he
    cases h : f a with
    | truthy v => rw [retryGo] at he; simp [h] at he
    | falsy =>
      simp only [retryGo, h] at he ⊢
      rw [ih _ _ e he]
    | thrown =>
      by_cases hlt : a < MAX_RETRIES
      · simp only [retryGo, h, if_pos hlt] at he ⊢
        rw [ih _ _ _ he]
      · simp only [retryGo, h, if_neg hlt] at he ⊢
        rw [ih _ _ _ he]

theorem retryGo_first_truthy {α : Type} (f : Nat → AttemptResult α) :
    ∀ (i fuel attempt : Nat) (le : Option Unit) (a : α), i < fuel →
      f (attempt + i) = AttemptResult.truthy a →
      (∀ j, j < i → (f (attempt + j)).isTruthy = false) →
      (retryGo f fuel attempt le).1 = Except.ok a ∧
        (retryGo f fuel attempt le).2.1 = i + 1 := by
  intro i
  induction i with
  | zero =>
    intro fuel attempt le a hf ht _
    cases fuel with
    | zero => omega
    | succ n =>
      have ht' : f attempt = AttemptResult.truthy a := by simpa using ht
      simp [retryGo, ht']
  | succ i ih =>
    intro fuel attempt le a hf ht hj
    cases fuel with
    | zero => omega
    | succ n =>
      have h0 : (f attempt).isTruthy = false := by
        simpa using hj 0 (Nat.succ_pos i)
      have ht' : f (attempt + 1 + i) = AttemptResult.truthy a := by
        rw [show attempt + 1 + i = attempt + (i + 1) from by omega]
        exact ht
      have hj' : ∀ j, j < i → (f (attempt + 1 + j)).isTruthy = false := by
        intro j hji
        rw [show attempt + 1 + j = attempt + (j + 1) from by omega]
        exact hj (j + 1) (by omega)
      cases hfa : f attempt with
      | truthy v => rw [hfa] at h0; simp [AttemptResult.isTruthy] at h0
      | falsy =>
        have hrec := ih n (attempt + 1) le a (by omega) ht' hj'
        simp only [retryGo, hfa]
        exact ⟨hrec.1, by rw [hrec.2]⟩
      | thrown =>
        simp only [retryGo, hfa]
        split
        · have hrec := ih n (attempt + 1) (some ()) a (by omega) ht' hj'
          exact ⟨hrec.1, by rw [hrec.2]⟩
        · have hrec := ih n (attempt + 1) (some ()) a (by omega) ht' hj'
          exact ⟨hrec.1, by rw [hrec.2]⟩

theorem retryGo_delays_sublist {α : Type} (f : Nat → AttemptResult α) :
    ∀ fuel attempt le,
      (retryGo f fuel attempt le).2.2.Sublist (RETRY_DELAYS.drop attempt) := by
  intro fuel
  induction fuel with
  | zero => intro a le; simp [retryGo]
  | succ n ih =>
    intro a le
    have hstep : (RETRY_DELAYS.drop (a + 1)).Sublist (RETRY_DELAYS.drop a) := by
      rw [← List.tail_drop]
      exact List.tail_sublist _
    cases h : f a with
    | truthy v => simp [retryGo, h]
    | falsy =>
      simp only [retryGo, h]
      exact (ih (a + 1) le).trans hstep
    | thrown =>
      simp only [retryGo, h]
      split
      · rename_i hlt
        have hlen : a < RETRY_DELAYS.length := hlt
        rw [List.drop_eq_getElem_cons hlen]
        have hgd : RETRY_DELAYS.getD a 0 = RETRY_DELAYS[a] :=
          List.getD_eq_getElem RETRY_DELAYS 0 hlen
        rw [hgd]
        exact List.Sublist.cons₂ _ (ih (a + 1) (some ()))
      · exact (ih (a + 1) (some ())).trans hstep

theorem fetchWithRetry_all_thrown {α : Type} (f : Nat → AttemptResult α)
    (h : ∀ j, f j = AttemptResult.thrown) :
    fetchWithRetry f = (Except.error (some ()), 4, [1000, 2000, 4000]) := by
  have hf : f = fun _ => AttemptResult.thrown := funext h
  rw [hf]
  rfl

/-! ### Claim C6 -/

/-- C6: the retry wrapper performs at most `MAX_RETRIES + 1 = 4` attempts;
it fails only with all attempts exhausted; the first truthy attempt ends the
loop with that result after exactly its own number of attempts; the backoff
delays slept are, in order, an initial segment pattern of the exponential
schedule 1s, 2s, 4s (exactly that schedule when every attempt throws). -/
theorem c6_retry_wrapper :
    ∀ {α : Type} (f : Nat → AttemptResult α),
      MAX_RETRIES + 1 = 4 ∧
      RETRY_DELAYS = [1000, 2000, 4000] ∧
      (fetchWithRetry f).2.1 ≤ MAX_RETRIES + 1 ∧
      (∀ e, (fetchWithRetry f).1 = Except.error e →
        (fetchWithRetry f).2.1 = MAX_RETRIES + 1) ∧
      (∀ i a, i < MAX_RETRIES + 1 → f i = AttemptResult.truthy a →
        (∀ j, j < i → (f j).isTruthy = false) →
        (fetchWithRetry f).1 = Except.ok a ∧ (fetchWithRetry f).2.1 = i + 1) ∧
      (fetchWithRetry f).2.2.Sublist RETRY_DELAYS ∧
      ((∀ j, f j = AttemptResult.thrown) →
        fetchWithRetry f = (Except.error (some ()), 4, [1000, 2000, 4000])) := by
  intro α f
  refine ⟨rfl, rfl, retryGo_attempts_le f _ _ _,
    fun e he => retryGo_error_attempts f _ _ _ e he, ?_, ?_,
    fetchWithRetry_all_thrown f⟩
  · intro i a hi ht hj
    exact retryGo_first_truthy f i (MAX_RETRIES + 1) 0 none a hi
      (by simpa using ht) (fun j hji => by simpa using hj j hji)
  · simpa using retryGo_delays_sublist f (MAX_RETRIES + 1) 0 none

/-- C6 witness: an immediately truthy fetch ends after one attempt. -/
theorem c6_retry_wrapper_witness :
    (fetchWithRetry fun _ => (AttemptResult.truthy 9 : AttemptResult Nat)).1 =
        Except.ok 9 ∧
      (fetchWithRetry fun _ => (AttemptResult.truthy 9 : AttemptResult Nat)).2.1 = 1 :=
  (c6_retry_wrapper _).2.2.2.2.1 0 9 (by decide) rfl
    (fun j hj => absurd hj (Nat.not_lt_zero j))

/-! ### Claim C10 -/

/-- C10: when every attempt resolves to a falsy value and none throws, the
wrapper performs all 4 attempts with no backoff delay between them and then
throws the never-assigned `lastError`, i.e. the `undefined` value (modelled
`Except.error none`) rather than a proper `Error`. -/
theorem c10_falsy_attempts :
    ∀ {α : Type} (f : Nat → AttemptResult α), (∀ i, f i = AttemptResult.falsy) →
      fetchWithRetry f = (Except.error none, MAX_RETRIES + 1, []) := by
  intro α f h
  have hf : f = fun _ => AttemptResult.falsy := funext h
  rw [hf]
  rfl

/-- C10 witness. -/
theorem c10_falsy_attempts_witness :
    fetchWithRetry (fun _ => (AttemptResult.falsy : AttemptResult Nat)) =
      (Except.error none, MAX_RETRIES + 1, []) :=
  c10_falsy_attempts _ (fun _ => rfl)

/-! ### The proxy race (claim C7) -/

theorem promiseAny_eq_none {α : Type} :
    ∀ l : List (Except Unit α),
      promiseAny l = none ↔ ∀ o ∈ l, ∃ e, o = Except.error e := by
  intro l
  induction l with
  | nil => simp [promiseAny]
  | cons o rest ih =>
    cases o with
    | ok v => simp [promiseAny]
    | error e => simp [promiseAny, ih]

theorem promiseAny_eq_some {α : Type} :
    ∀ (l : List (Except Unit α)) (v : α),
      promiseAny l = some v → Except.ok v ∈ l := by
  intro l
  induction l with
  | nil => intro v h; simp [promiseAny] at h
  | cons o rest ih =>
    intro v h
    cases o with
    | ok w =>
      simp only [promiseAny, Option.some_inj] at h
      subst h
      exact List.mem_cons_self _ _
    | error e =>
      simp only [promiseAny] at h
      exact List.mem_cons_of_mem _ (ih v h)

theorem promiseAny_append_errors {α : Type} :
    ∀ l1 l2 : List (Except Unit α), (∀ o ∈ l1, ∃ e, o = Except.error e) →
      promiseAny (l1 ++ l2) = promiseAny l2 := by
  intro l1
  induction l1 with
  | nil => intro l2 _; rfl
  | cons o rest ih =>
    intro l2 h
    rcases h o (List.mem_cons_self _ _) with ⟨e, rfl⟩
    simp only [List.cons_append, promiseAny]
    exact ih l2 fun o ho => h o (List.mem_cons_of_mem _ ho)

/-! ### Claim C7 -/

/-- C7: the race over the three configured relays returns the body of a
successfully responding relay whenever at least one relay succeeds (whatever
the completion order), fails exactly when every relay fails or times out,
and the winner alone determines the returned value — the outcomes of the
relays completing after the winner are irrelevant. -/
theorem c7_proxy_race :
    ∀ {α : Type} (order : List (Fin CORS_PROXIES.length))
      (results : Fin CORS_PROXIES.length → Except Unit α),
      CORS_PROXIES.length = 3 ∧
      (List.Perm order (List.finRange CORS_PROXIES.length) →
        (((∃ i v, results i = Except.ok v) →
            ∃ i v, fetchWithProxyRace order results = some v ∧
              results i = Except.ok v) ∧
          (fetchWithProxyRace order results = none ↔
            ∀ i, ∃ e, results i = Except.error e))) ∧
      (∀ (w : Fin CORS_PROXIES.length)
        (pre post : List (Fin CORS_PROXIES.length)) (v : α),
        order = pre ++ w :: post → results w = Except.ok v →
        (∀ j ∈ pre, ∃ e, results j = Except.error e) →
        fetchWithProxyRace order results = some v) := by
  intro α order results
  have hnone : fetchWithProxyRace order results = none ↔
      ∀ i ∈ order, ∃ e, results i = Except.error e := by
    unfold fetchWithProxyRace
    rw [promiseAny_eq_none]
    constructor
    · intro h i hi
      rcases h (results i) (List.mem_map.mpr ⟨i, hi, rfl⟩) with ⟨e, he⟩
      exact ⟨e, he⟩
    · intro h o ho
      rcases List.mem_map.mp ho with ⟨i, hi, rfl⟩
      exact h i hi
  refine ⟨rfl, ?_, ?_⟩
  · intro hperm
    have hmem : ∀ i : Fin CORS_PROXIES.length, i ∈ order := fun i =>
      hperm.mem_iff.mpr (List.mem_finRange i)
    constructor
    · rintro ⟨i, v, hiv⟩
      cases hres : fetchWithProxyRace order results with
      | none =>
        rcases (hnone.mp hres) i (hmem i) with ⟨e, he⟩
        rw [hiv] at he
        cases he
      | some u =>
        have := promiseAny_eq_some (order.map results) u hres
        rcases List.mem_map.mp this with ⟨j, _, hj⟩
        exact ⟨j, u, rfl, hj⟩
    · rw [hnone]
      constructor
      · intro h i
        exact h i (hmem i)
      · intro h i _
        exact h i
  · intro w pre post v horder hw hpre
    subst horder
    unfold fetchWithProxyRace
    rw [List.map_append]
    rw [promiseAny_append_errors (pre.map results) _ ?_]
    · simp [promiseAny, hw]
    · intro o ho
      rcases List.mem_map.mp ho with ⟨j, hj, rfl⟩
      exact hpre j hj

/-- C7 witness: a single successful relay yields its body, regardless of how
the losing relays fail. -/
theorem c7_proxy_race_witness :
    fetchWithProxyRace (⟨0, by decide⟩ :: ⟨1, by decide⟩ :: [⟨2, by decide⟩])
        (fun i => if i.1 = 1 then Except.ok 7 else (Except.error () : Except Unit Nat)) =
      some 7 :=
  (c7_proxy_race _ _).2.2 ⟨1, by decide⟩ [⟨0, by decide⟩] [⟨2, by decide⟩] 7 rfl
    rfl
    (by
      intro j hj
      rcases List.mem_singleton.mp hj with rfl
      exact ⟨(), rfl⟩)

/-! ### Claim C8 -/

/-- C8: a trigger (timer tick or manual refetch, both of which call
`fetchPriceData`) arriving while a cycle is in progress returns immediately:
the state is unchanged and the underlying fetch functions are not invoked
(the call counter does not move). -/
theorem c8_reentrancy_guard :
    ∀ (now : Int) (o : CycleOutcome) (s : ControllerState) (calls : Nat),
      s.isFetching = true → fetchPriceData now o s calls = (s, calls) := by
  intro now o s calls h
  simp [fetchPriceData, h]

/-- C8 witness. -/
theorem c8_reentrancy_guard_witness :
    fetchPriceData 0 CycleOutcome.threw
        (⟨[], none, true, none, none, false, none, none, true⟩ : ControllerState) 0 =
      ((⟨[], none, true, none, none, false, none, none, true⟩ : ControllerState), 0) :=
  c8_reentrancy_guard 0 CycleOutcome.threw _ 0 rfl

/-! ### The state invariant (claim C9) -/

theorem jsRound_nonneg {q : ℚ} (h : 0 ≤ q) : 0 ≤ jsRound q := by
  unfold jsRound
  have h2 : (0 : ℚ) ≤ q + 1 / 2 := by linarith
  exact Int.floor_nonneg.mpr h2

theorem monthPrices_mem {l : List (Int × ℚ)} {m : String} {q : ℚ}
    (hq : q ∈ monthPrices l m) : ∃ x ∈ l, x.2 = q := by
  unfold monthPrices at hq
  rcases List.mem_map.mp hq with ⟨x, hx, rfl⟩
  exact ⟨x, List.mem_of_mem_filter hx, rfl⟩

theorem processPriceData_nonneg {l : List (Int × ℚ)} (h : ∀ x ∈ l, 0 ≤ x.2) :
    ∀ e ∈ processPriceData l, 0 ≤ e.price := by
  intro e he
  rw [processPriceData_price he]
  apply jsRound_nonneg
  unfold monthMean
  apply div_nonneg
  · apply List.sum_nonneg
    intro q hq
    rcases monthPrices_mem hq with ⟨x, hx, rfl⟩
    exact h x hx
  · exact Nat.cast_nonneg _

theorem fallback_sorted : sortedStrict FALLBACK_ARRAY := by
  unfold sortedStrict
  decide

theorem fallback_nonneg : ∀ e ∈ FALLBACK_ARRAY, 0 ≤ e.price := by decide

theorem fallback_latest_nonneg : 0 ≤ fallbackLatestPrice := by decide

theorem loadFromCache_good {re : Bool} {stored : Option (Except Unit CacheRecord)}
    {now : Int} {d : CacheData} (h : goodCache stored)
    (hload : (loadFromCache re stored now).1 = some d) : goodData d := by
  unfold loadFromCache at hload
  cases re with
  | true => simp at hload
  | false =>
    simp only [Bool.false_eq_true, if_false] at hload
    cases stored with
    | none => cases hload
    | some ex =>
      cases ex with
      | error e => cases hload
      | ok rec =>
        simp only at hload
        split at hload
        · cases hload
          exact h
        · cases hload

theorem goodState_hydrate {now : Int} {re : Bool} {s : ControllerState}
    (h : goodState s) : goodState (hydrateFromCache now re s) := by
  obtain ⟨h1, h2, h3, h4⟩ := h
  unfold hydrateFromCache
  cases hload : (loadFromCache re s.cache now).1 with
  | none => exact ⟨h1, h2, h3, h4⟩
  | some d =>
    have hd : goodData d := loadFromCache_good h4 hload
    refine ⟨hd.1, hd.2.1, ?_, h4⟩
    intro cp hcp
    rcases Option.mem_some_iff.mp hcp with rfl
    exact hd.2.2

theorem goodCache_save {stored : Option (Except Unit CacheRecord)}
    {pd : List PricePoint} {cp : CurrentPrice} {now : Int} {w : Bool}
    (hst : goodCache stored) (hsorted : sortedStrict pd)
    (hpd : ∀ e ∈ pd, 0 ≤ e.price) (hcp : 0 ≤ cp.price) :
    goodCache (saveToCache w stored pd cp now) := by
  unfold saveToCache
  split
  · exact hst
  · exact ⟨hsorted, hpd, hcp⟩

theorem runCycleBody_none_none (now : Int) (w : Bool) (s : ControllerState) :
    runCycleBody now w none none s =
      ⟨FALLBACK_ARRAY, some ⟨fallbackLatestPrice, none, none⟩, false, none,
        some now, false, some ("fallback"), s.cache, false⟩ := by
  simp [runCycleBody]

theorem runCycleBody_some_none (now : Int) (w : Bool) (r : CurrentPrice)
    (s : ControllerState) :
    runCycleBody now w (some r) none s =
      ⟨FALLBACK_ARRAY, some r, false, none, some now, true,
        some (jsStrOr r.source ("api")), s.cache, false⟩ := by
  simp [runCycleBody]

theorem runCycleBody_none_some_empty (now : Int) (w : Bool)
    (prices : List (Int × ℚ)) (s : ControllerState)
    (hemp : (processPriceData prices).isEmpty = true) :
    runCycleBody now w none (some prices) s =
      ⟨FALLBACK_ARRAY, some ⟨fallbackLatestPrice, none, none⟩, false, none,
        some now, false, some ("fallback"), s.cache, false⟩ := by
  simp [runCycleBody, hemp]

theorem runCycleBody_some_some_empty (now : Int) (w : Bool) (r : CurrentPrice)
    (prices : List (Int × ℚ)) (s : ControllerState)
    (hemp : (processPriceData prices).isEmpty = true) :
    runCycleBody now w (some r) (some prices) s =
      ⟨FALLBACK_ARRAY, some r, false, none, some now, true,
        some (jsStrOr r.source ("api")), s.cache, false⟩ := by
  simp [runCycleBody, hemp]

theorem runCycleBody_none_some (now : Int) (w : Bool) (prices : List (Int × ℚ))
    (s : ControllerState) (hpne : prices ≠ [])
    (hemp : (processPriceData prices).isEmpty = false) :
    runCycleBody now w none (some prices) s =
      ⟨processPriceData prices,
        some ⟨jsRound (prices.getLast hpne).2, none, none⟩, false, none,
        some now, true, s.dataSource,
        saveToCache w s.cache (processPriceData prices)
          ⟨jsRound (prices.getLast hpne).2, none, none⟩ now, false⟩ := by
  have hlast : prices.getLast? = some (prices.getLast hpne) :=
    List.getLast?_eq_getLast prices hpne
  simp [runCycleBody, hemp, hlast]

theorem runCycleBody_some_some (now : Int) (w : Bool) (r : CurrentPrice)
    (prices : List (Int × ℚ)) (s : ControllerState)
    (hemp : (processPriceData prices).isEmpty = false) :
    runCycleBody now w (some r) (some prices) s =
      ⟨processPriceData prices, some r, false, none, some now, true,
        some (jsStrOr r.source ("api")),
        saveToCache w s.cache (processPriceData prices) r now, false⟩ := by
  simp [runCycleBody, hemp]

theorem goodState_cycleBody {now : Int} {w : Bool} {priceRes : Option CurrentPrice}
    {histRes : Option (List (Int × ℚ))} {s : ControllerState}
    (h : goodState s) (hp : ∀ r ∈ priceRes, 0 ≤ r.price)
    (hh : ∀ x ∈ histRes.getD [], 0 ≤ x.2) :
    goodState (runCycleBody now w priceRes histRes s) := by
  obtain ⟨h1, h2, h3, h4⟩ := h
  have hfb : ∀ cp : CurrentPrice,
      cp ∈ (some (⟨fallbackLatestPrice, none, none⟩ : CurrentPrice)) →
        0 ≤ cp.price := by
    intro cp hcp
    rcases Option.mem_some_iff.mp hcp with rfl
    exact fallback_latest_nonneg
  cases priceRes with
  | none =>
    cases histRes with
    | none =>
      rw [runCycleBody_none_none]
      exact ⟨fallback_sorted, fallback_nonneg, hfb, h4⟩
    | some prices =>
      have hpr : ∀ x ∈ prices, 0 ≤ x.2 := by simpa using hh
      cases hemp : (processPriceData prices).isEmpty with
      | true =>
        rw [runCycleBody_none_some_empty now w prices s hemp]
        exact ⟨fallback_sorted, fallback_nonneg, hfb, h4⟩
      | false =>
        have hpne : prices ≠ [] := by
          rintro rfl
          simp [processPriceData, buildMonthly, sortByMonth] at hemp
        have hlastnn : 0 ≤ jsRound (prices.getLast hpne).2 :=
          jsRound_nonneg (hpr _ (List.getLast_mem hpne))
        rw [runCycleBody_none_some now w prices s hpne hemp]
        refine ⟨processPriceData_sorted prices, processPriceData_nonneg hpr,
          ?_, ?_⟩
        · intro cp hcp
          rcases Option.mem_some_iff.mp hcp with rfl
          exact hlastnn
        · exact goodCache_save h4 (processPriceData_sorted prices)
            (processPriceData_nonneg hpr) hlastnn
  | some r =>
    have hr : 0 ≤ r.price := hp r rfl
    have hsr : ∀ cp : CurrentPrice, cp ∈ (some r : Option CurrentPrice) →
        0 ≤ cp.price := by
      intro cp hcp
      rcases Option.mem_some_iff.mp hcp with rfl
      exact hr
    cases histRes with
    | none =>
      rw [runCycleBody_some_none]
      exact ⟨fallback_sorted, fallback_nonneg, hsr, h4⟩
    | some prices =>
      have hpr : ∀ x ∈ prices, 0 ≤ x.2 := by simpa using hh
      cases hemp : (processPriceData prices).isEmpty with
      | true =>
        rw [runCycleBody_some_some_empty now w r prices s hemp]
        exact ⟨fallback_sorted, fallback_nonneg, hsr, h4⟩
      | false =>
        rw [runCycleBody_some_some now w r prices s hemp]
        exact ⟨processPriceData_sorted prices, processPriceData_nonneg hpr, hsr,
          goodCache_save h4 (processPriceData_sorted prices)
            (processPriceData_nonneg hpr) hr⟩

theorem goodState_catch {now : Int} {s : ControllerState} (h : goodState s) :
    goodState (runCycleCatch now s) := by
  refine ⟨fallback_sorted, fallback_nonneg, ?_, h.2.2.2⟩
  intro cp hcp
  rcases Option.mem_some_iff.mp hcp with rfl
  exact fallback_latest_nonneg

theorem goodState_step {s : ControllerState} {ev : ControllerEvent}
    (h : goodState s) (hev : nonnegEvent ev) : goodState (stepEvent s ev) := by
  cases ev with
  | hydrate now re => exact goodState_hydrate h
  | tick now o =>
    show goodState (fetchPriceData now o s 0).1
    unfold fetchPriceData
    split
    · exact h
    · obtain ⟨h1, h2, h3, h4⟩ := h
      cases o with
      | ok p hist w =>
        obtain ⟨hp, hh⟩ := hev
        exact goodState_cycleBody ⟨h1, h2, h3, h4⟩ hp hh
      | threw => exact goodState_catch ⟨h1, h2, h3, h4⟩

theorem goodState_run {evs : List ControllerEvent} :
    ∀ {s : ControllerState}, goodState s → (∀ ev ∈ evs, nonnegEvent ev) →
      goodState (runEvents s evs) := by
  induction evs with
  | nil => intro s h _; exact h
  | cons ev evs ih =>
    intro s h hevs
    exact ih (goodState_step h (hevs ev (List.mem_cons_self _ _)))
      fun e he => hevs e (List.mem_cons_of_mem _ he)

/-! ### Claim C9 -/

/-- C9 counterexample: a single cycle whose current-price provider delivers
price -5 leaves `currentPrice.price` negative, refuting "currentPrice.price
is a non-negative integer in every reachable state for any fetch outcomes".
-/
theorem c9_counterexample :
    (runEvents (initialState none)
        [ControllerEvent.tick 0 (CycleOutcome.ok
          (some ⟨-5, none, some ("coincap")⟩) none false)]).currentPrice =
      some ⟨-5, none, some ("coincap")⟩ ∧ (-5 : Int) < 0 := by
  constructor
  · simp [runEvents, stepEvent, fetchPriceData, initialState, runCycleBody]
  · decide

/-- C9 (amended): in every reachable state — after cache hydration from a
well-formed cache and any sequence of cycles — `priceData` is strictly
ascending by month key (sorted, duplicate free) and `currentPrice.price` is
an integer (by construction) that is non-negative PROVIDED every price
delivered by the fetch outcomes is non-negative; a provider delivering a
negative price propagates it. -/
theorem c9_state_invariant :
    ∀ cache0 : Option (Except Unit CacheRecord), goodCache cache0 →
      ∀ evs : List ControllerEvent, (∀ ev ∈ evs, nonnegEvent ev) →
        sortedStrict (runEvents (initialState cache0) evs).priceData ∧
          ∀ cp ∈ (runEvents (initialState cache0) evs).currentPrice,
            0 ≤ cp.price := by
  intro cache0 h0 evs hevs
  have hinit : goodState (initialState cache0) := by
    refine ⟨?_, ?_, ?_, h0⟩
    · exact List.Pairwise.nil
    · intro e he; cases he
    · intro cp hcp; cases hcp
  have hrun := goodState_run hinit hevs
  exact ⟨hrun.1, hrun.2.2.1⟩

/-- C9 witness for the amended statement: hydration from an empty cache
followed by one all-non-negative cycle. -/
theorem c9_state_invariant_witness :
    sortedStrict (runEvents (initialState none)
        [ControllerEvent.hydrate 0 false,
         ControllerEvent.tick 0 (CycleOutcome.ok (some ⟨5, none, none⟩) none false)]).priceData ∧
      ∀ cp ∈ (runEvents (initialState none)
        [ControllerEvent.hydrate 0 false,
         ControllerEvent.tick 0 (CycleOutcome.ok (some ⟨5, none, none⟩) none false)]).currentPrice,
        0 ≤ cp.price := by
  apply c9_state_invariant none trivial
  intro ev hev
  rcases List.mem_cons.mp hev with rfl | hev
  · exact trivial
  · rcases List.mem_cons.mp hev with rfl | hev
    · refine ⟨?_, ?_⟩
      · intro r hr
        rcases Option.mem_some_iff.mp hr with rfl
        decide
      · intro x hx
        cases hx
    · cases hev

end CryptoPriceV2
